import Mathlib

/-!
Verification of the promise core of the gostream repository
(`src/promise/promise.go`) against its natural-language specification.

The Go code is embedded shallowly:

* `aPromise` keeps the four mutable fields of the Go struct; machine
  integers and interface values become `Nat` and an explicit value type.
* the `resolve`/`reject` closures built by `NewPromise` become explicit
  state transformers returning, next to the new state, the list of
  callback dispatches (`go han(...)` calls) they start;
* `Then`'s inner `handle` continuation becomes a state transformer on the
  derived promise; a handler invocation that panics is represented by an
  explicit `fault` result, and the deferred `recover` block becomes the
  match in `handle`;
* the combinator executors (`All`, `Any`) become step functions folded
  over a completion schedule: the list of input indices in the
  chronological order in which the inputs settle.

A Go `Thenable` is modelled by the settlement it eventually hands to the
callbacks passed to its `Then` method (`UVal.vthenRes` / `UVal.vthenRej`);
subscribing to it and eventually receiving that settlement collapses, in
this sequential embedding, to applying the subscriber to the settlement.
-/

namespace GoPromise

/-- Status constant from the source, `iota` order: `PromisePending = 0`. -/
def PromisePending : Nat := 0

/-- Status constant from the source: `PromiseResolved = 1`. -/
def PromiseResolved : Nat := 1

/-- Status constant from the source: `PromiseRejected = 2`. -/
def PromiseRejected : Nat := 2

/-- The source's status-name table:
`PromiseStatusName = []string{"Pending", "Resolved", "Rejected"}`. -/
def PromiseStatusName : List String := ["Pending", "Resolved", "Rejected"]

/-- Go `error` values seen by the promise core.  `simple` is
`PromiseError` (or any other plain error) carrying a description.
`multi` is `MultiPromiseError`: the Go struct stores the list of source
promises and `Outcomes()` queries each one on demand; it is only ever
constructed (in `Any`) once every member promise is settled `Rejected`,
after which the outcome list is immutable, each member's `Result` is nil
and its `Status` is `Rejected`, so the informative column of the outcome
list is the per-member `Reason`, stored here in original input order. -/
inductive Err : Type where
  | simple (msg : String)
  | multi (descr : String) (reasons : List (Option Err))

/-- Dynamic values (the source's `Unknown = interface` type).  `vnil` is
the nil interface value.  `verr` is a value whose type assertion
`.(error)` succeeds with a non-nil error.  `vthenRes`/`vthenRej` are
values whose assertion `.(Thenable)` (and `.(Promise)`) succeeds: a
thenable is represented by the settlement it eventually delivers to the
handlers passed to its `Then` method.  The constructors are disjoint: a
value implements at most one of the `error`/`Thenable` interfaces here. -/
inductive UVal : Type where
  | vnil
  | vint (n : Int)
  | vstr (s : String)
  | verr (e : Err)
  | vthenRes (v : UVal)
  | vthenRej (e : Option Err)
  | vlist (vs : List UVal)

/-- Go type assertion `val.(Thenable)` succeeding. -/
def isThenable : UVal → Bool
  | UVal.vthenRes _ => true
  | UVal.vthenRej _ => true
  | _ => false

/-- Go type assertion `res.(error)` succeeding with a non-nil error
(the source always checks `ok && (err != nil)`). -/
def isErrVal : UVal → Option Err
  | UVal.verr e => some e
  | _ => none

/-- Go comparison `res == nil` on an interface value. -/
def isNilVal : UVal → Bool
  | UVal.vnil => true
  | _ => false

/-- The mutable state of the source's `aPromise` struct: `status uint`,
`result Unknown`, `reject error`, `callbacks []func(uint, Unknown, error)`.
Registered callbacks are opaque closures in Go; here each is an opaque
token, and dispatching one is recorded in the transformer's output. -/
structure aPromise : Type where
  status : Nat
  result : UVal
  reject : Option Err
  callbacks : List Nat

/-- One `go han(status, val, err)` dispatch: the callback token together
with the three arguments the source hands to it. -/
abbrev Dispatch := Nat × Nat × UVal × Option Err

/-- The freshly constructed promise of `NewPromise`: status
`PromisePending`, nil `result` and `reject`, empty callback list. -/
def newPromiseState : aPromise :=
  { status := PromisePending, result := UVal.vnil, reject := none, callbacks := [] }

/-- The `reject` closure built by `NewPromise`: if the promise is still
pending it transitions to `PromiseRejected`, stores the reason, starts
`go han(PromiseRejected, nil, err)` for every registered callback and
truncates the registry; otherwise it does nothing. -/
def reject (e : Option Err) (p : aPromise) : aPromise × List Dispatch :=
  if p.status = PromisePending then
    ({ status := PromiseRejected, result := p.result, reject := e, callbacks := [] },
     p.callbacks.map fun c => (c, PromiseRejected, UVal.vnil, e))
  else
    (p, [])

/-- The non-thenable branch of the `resolve` closure: if the promise is
still pending it transitions to `PromiseResolved`, stores the value,
starts `go han(PromiseResolved, val, nil)` for every registered callback
and truncates the registry; otherwise it does nothing. -/
def settleWith (v : UVal) (p : aPromise) : aPromise × List Dispatch :=
  if p.status = PromisePending then
    ({ status := PromiseResolved, result := v, reject := p.reject, callbacks := [] },
     p.callbacks.map fun c => (c, PromiseResolved, v, none))
  else
    (p, [])

/-- The `resolve` closure built by `NewPromise`.  A value whose
`.(Thenable)` assertion succeeds is not stored: the closure subscribes
itself (`then.Then(resolve, reject)`) to the inner thenable, so the
settlement the inner thenable eventually delivers is fed back into
`resolve`/`reject`, recursively.  Any other value settles the promise via
the pending check. -/
def resolve : UVal → aPromise → aPromise × List Dispatch
  | UVal.vthenRes v, p => resolve v p
  | UVal.vthenRej e, p => reject e p
  | v, p => settleWith v p

/-- Operations that can touch a promise's state after construction:
a `resolve(v)` call, a `reject(e)` call, or a `Then` registration (the
source appends the continuation while pending, and dispatches it at once
with the stored settlement otherwise). -/
inductive PromOp : Type where
  | opResolve (v : UVal)
  | opReject (e : Option Err)
  | opRegister (c : Nat)

/-- One operation applied to a promise state, with the dispatches it
starts. -/
def stepProm : PromOp → aPromise → aPromise × List Dispatch
  | PromOp.opResolve v, p => resolve v p
  | PromOp.opReject e, p => reject e p
  | PromOp.opRegister c, p =>
      if p.status = PromisePending then
        ({ p with callbacks := p.callbacks ++ [c] }, [])
      else
        (p, [(c, p.status, p.result, p.reject)])

/-- A sequence of operations applied to a promise state (dispatch lists
dropped). -/
def applyProg (ops : List PromOp) (p : aPromise) : aPromise :=
  ops.foldl (fun s op => (stepProm op s).1) p

/-- `GetStatus` of the source indexes `PromiseStatusName` with the raw
status field; an out-of-bounds index, which would make the Go code
panic, is `none` here. -/
def GetStatus (p : aPromise) : Option String :=
  PromiseStatusName.get? p.status

/-- A thenable chain of depth `n` ending in `v`: each level is a
thenable that eventually resolves with the next level. -/
def nestThen : Nat → UVal → UVal
  | 0, v => v
  | n + 1, v => UVal.vthenRes (nestThen n v)

/-- Invoking a caller-supplied handler either returns a value or panics
with a recovered value `r` (Go panic arguments are interface values). -/
inductive HResult : Type where
  | ret (v : UVal)
  | fault (r : UVal)

/-- The `prom.Then(resolve, reject)` adoption call in `Then`'s resolved
branch, for a handler result whose `.(Promise)` assertion succeeded: the
derived promise's own `resolve`/`reject` closures receive the inner
promise's eventual settlement.  For a non-promise result nothing
happens. -/
def adopt (res : UVal) (p : aPromise) : aPromise :=
  match res with
  | UVal.vthenRes w => (resolve w p).1
  | UVal.vthenRej e => (reject e p).1
  | _ => p

/-- The body of `Then`'s `handle` continuation (the `switch status`
statement), acting on the state of the derived promise `p2`.  The second
component is the panic value escaping the body, if the handler
invocation panicked (a panic aborts the branch before any of its state
updates).  Mirrors the source line by line: in the rejected branch a
non-nil error result triggers `reject`, then any non-nil result triggers
`resolve`; in the resolved branch a non-nil error result triggers
`reject`, then a promise result is adopted, then `resolve(res)` runs
unconditionally; absent handlers pass the settlement through. -/
def handleBody (onsuccess : Option (UVal → HResult)) (onfail : Option (Option Err → HResult))
    (status : Nat) (val : UVal) (err : Option Err) (p2 : aPromise) :
    aPromise × Option UVal :=
  if status = PromiseRejected then
    match onfail with
    | some f =>
        match f err with
        | HResult.fault r => (p2, some r)
        | HResult.ret res =>
            let p2a := match isErrVal res with
                       | some e => (reject (some e) p2).1
                       | none => p2
            let p2b := if isNilVal res then p2a else (resolve res p2a).1
            (p2b, none)
    | none => ((reject err p2).1, none)
  else if status = PromiseResolved then
    match onsuccess with
    | some f =>
        match f val with
        | HResult.fault r => (p2, some r)
        | HResult.ret res =>
            let p2a := match isErrVal res with
                       | some e => (reject (some e) p2).1
                       | none => p2
            let p2b := adopt res p2a
            ((resolve res p2b).1, none)
    | none => ((resolve val p2).1, none)
  else
    (p2, none)

/-- `Then`'s `handle` continuation including its deferred block.  The
deferred block always runs; `recover()` intercepts any panic (so no
fault ever escapes `handle`), and only a recovered value whose
`.(error)` assertion succeeds with a non-nil error is turned into a
rejection of the derived promise. -/
def handle (onsuccess : Option (UVal → HResult)) (onfail : Option (Option Err → HResult))
    (status : Nat) (val : UVal) (err : Option Err) (p2 : aPromise) : aPromise :=
  match handleBody onsuccess onfail status val err p2 with
  | (p2x, none) => p2x
  | (p2x, some r) =>
      match isErrVal r with
      | some e => (reject (some e) p2x).1
      | none => p2x

/-- The settlement an input promise of a combinator eventually reaches. -/
inductive Settle : Type where
  | sres (v : UVal)
  | srej (e : Option Err)

/-- The resolved value of a settlement (nil for a rejection). -/
def settleValue : Settle → UVal
  | Settle.sres v => v
  | Settle.srej _ => UVal.vnil

/-- The rejection reason of a settlement (nil for a resolution). -/
def settleReason : Settle → Option Err
  | Settle.sres _ => none
  | Settle.srej e => e

/-- Whether a settlement is a resolution. -/
def isRes : Settle → Bool
  | Settle.sres _ => true
  | Settle.srej _ => false

/-- The source's `getPromiseOutcomes` maps `p.Outcome()` over a promise
list in order.  In the one reachable call site behind an aggregate error
(`Any`'s total-failure rejection) every member is settled `Rejected`
with nil `Result`, so the outcome list is determined by the per-member
`Reason` column, kept here in original input order. -/
def getPromiseOutcomes (inputs : List Settle) : List (Option Err) :=
  inputs.map settleReason

/-- The state of a running `All` executor: the `_results` slice, the
`count_success` counter, and the synthetic promise the executor drives. -/
structure AllState : Type where
  results : List UVal
  countSuccess : Nat
  prom : aPromise

/-- Initial `All` executor state: `_results = make([]Unknown, count)`
(a slice of nil interface values), `count_success = 0`, and the pending
synthetic promise built by `NewPromise`. -/
def allInit (inputs : List Settle) : AllState :=
  { results := List.replicate inputs.length UVal.vnil
    countSuccess := 0
    prom := newPromiseState }

/-- One input of `All` settling, as observed through the continuation
`All` registered on it with `p.Then(make_resolver(i, p, resolve), reject)`:
a resolution stores the value at slot `i`, increments `count_success`
and calls `resolve(_results)` on the synthetic promise exactly when the
counter reaches `count = len(proms)`; a rejection calls the synthetic
promise's raw `reject` with the input's reason. -/
def allStep (inputs : List Settle) (st : AllState) (i : Nat) : AllState :=
  match inputs.get? i with
  | some (Settle.sres v) =>
      let rs := st.results.set i v
      let cs := st.countSuccess + 1
      if inputs.length = cs then
        { results := rs, countSuccess := cs, prom := (resolve (UVal.vlist rs) st.prom).1 }
      else
        { results := rs, countSuccess := cs, prom := st.prom }
  | some (Settle.srej e) =>
      { results := st.results, countSuccess := st.countSuccess
        prom := (reject e st.prom).1 }
  | none => st

/-- The synthetic promise of `All` after its inputs settled in the
chronological order given by the schedule `σ` (a list of input
indices). -/
def runAll (inputs : List Settle) (σ : List Nat) : aPromise :=
  (σ.foldl (allStep inputs) (allInit inputs)).prom

/-- The state of a running `Any` executor: the `failures` counter and
the synthetic promise. -/
structure AnyState : Type where
  failures : Nat
  prom : aPromise

/-- One input of `Any` settling, as observed through the continuation
`Any` registered on it with `prom.Then(resolve, closure)`: a resolution
calls the synthetic promise's raw `resolve` with the value; a rejection
increments `failures` and, exactly when the counter reaches
`total = len(proms)`, rejects the synthetic promise with
`NewMultiPromiseError("all promises failed", proms)`. -/
def anyStep (inputs : List Settle) (st : AnyState) (i : Nat) : AnyState :=
  match inputs.get? i with
  | some (Settle.sres v) => { st with prom := (resolve v st.prom).1 }
  | some (Settle.srej _) =>
      let f := st.failures + 1
      if f = inputs.length then
        { failures := f
          prom := (reject (some (Err.multi "all promises failed" (getPromiseOutcomes inputs)))
                     st.prom).1 }
      else
        { failures := f, prom := st.prom }
  | none => st

/-- The synthetic promise of `Any` after its inputs settled in the
chronological order given by the schedule `σ`. -/
def runAny (inputs : List Settle) (σ : List Nat) : aPromise :=
  (σ.foldl (anyStep inputs) { failures := 0, prom := newPromiseState }).prom

/-- The pair of channels built by `Channel()` after the continuation it
registers has run to completion on a settled promise: on resolution the
`result` channel holds the value and both channels are closed; on
rejection the `errout` channel holds the reason and both channels are
closed.  A channel is a single-slot buffer plus a closed flag. -/
structure ChanPair : Type where
  resultBuf : Option UVal
  resultClosed : Bool
  erroutBuf : Option (Option Err)
  erroutClosed : Bool

/-- The channel pair of `Channel()` once the registered continuation has
completed (for a still-pending promise nothing has been sent or
closed). -/
def channelAfter (p : aPromise) : ChanPair :=
  if p.status = PromiseResolved then
    { resultBuf := some p.result, resultClosed := true, erroutBuf := none, erroutClosed := true }
  else if p.status = PromiseRejected then
    { resultBuf := none, resultClosed := true, erroutBuf := some p.reject, erroutClosed := true }
  else
    { resultBuf := none, resultClosed := false, erroutBuf := none, erroutClosed := false }

/-- A Go channel receive is ready when a value is buffered or the
channel is closed (a closed channel yields its zero value at once). -/
def chanReady (buf : Option α) (closed : Bool) : Bool :=
  buf.isSome || closed

/-- `Wait()`'s `select` over the two channels of `Channel()`, in the
schedule where the registered continuation has already completed.  When
both cases are ready the Go runtime picks one pseudo-randomly; `choice`
records that pick (`true` = the `result` case).  Receiving from the
`result` case returns `(res, nil)`; from the `errout` case `(nil, err)`;
a closed empty channel yields its zero value (`nil`).  If neither case
is ready the select blocks, which cannot happen once the promise is
settled; that branch returns the zero pair. -/
def waitAfter (p : aPromise) (choice : Bool) : UVal × Option Err :=
  let c := channelAfter p
  if chanReady c.resultBuf c.resultClosed && (choice || !chanReady c.erroutBuf c.erroutClosed) then
    (c.resultBuf.getD UVal.vnil, none)
  else if chanReady c.erroutBuf c.erroutClosed then
    (UVal.vnil, c.erroutBuf.getD none)
  else
    (UVal.vnil, none)

/-- A settled promise used by several witnesses. -/
def settledEx : aPromise :=
  { status := PromiseResolved, result := UVal.vint 5, reject := none, callbacks := [] }

/-- A promise resolved with `1`, for the `Wait` analysis. -/
def resolvedOne : aPromise :=
  { status := PromiseResolved, result := UVal.vint 1, reject := none, callbacks := [] }

/-- A promise rejected with a plain error, for the `Wait` analysis. -/
def rejectedE : aPromise :=
  { status := PromiseRejected, result := UVal.vnil, reject := some (Err.simple "E"), callbacks := [] }

/-- Three inputs resolving with 1, 2, 3, for the `All` witness. -/
def allEx : List Settle :=
  [Settle.sres (UVal.vint 1), Settle.sres (UVal.vint 2), Settle.sres (UVal.vint 3)]

/-- Two rejecting inputs, for the `Any` witness. -/
def anyEx : List Settle :=
  [Settle.srej (some (Err.simple "e1")), Settle.srej (some (Err.simple "e2"))]

/-! ## Helper lemmas about the settlement core -/

theorem reject_settled (e : Option Err) (p : aPromise) (h : p.status ≠ PromisePending) :
    reject e p = (p, []) := by
  unfold reject
  simp [h]

theorem settleWith_settled (v : UVal) (p : aPromise) (h : p.status ≠ PromisePending) :
    settleWith v p = (p, []) := by
  unfold settleWith
  simp [h]

theorem reject_pending (e : Option Err) (p : aPromise) (h : p.status = PromisePending) :
    reject e p =
      ({ status := PromiseRejected, result := p.result, reject := e, callbacks := [] },
       p.callbacks.map fun c => (c, PromiseRejected, UVal.vnil, e)) := by
  unfold reject
  simp [h]

theorem settleWith_pending (v : UVal) (p : aPromise) (h : p.status = PromisePending) :
    settleWith v p =
      ({ status := PromiseResolved, result := v, reject := p.reject, callbacks := [] },
       p.callbacks.map fun c => (c, PromiseResolved, v, none)) := by
  unfold settleWith
  simp [h]

theorem resolve_vthenRes (v : UVal) (p : aPromise) :
    resolve (UVal.vthenRes v) p = resolve v p := rfl

theorem resolve_vthenRej (e : Option Err) (p : aPromise) :
    resolve (UVal.vthenRej e) p = reject e p := rfl

theorem resolve_base (v : UVal) (p : aPromise) (hv : isThenable v = false) :
    resolve v p = settleWith v p := by
  cases v <;> simp_all [isThenable, resolve]

theorem resolve_settled (v : UVal) (p : aPromise) (h : p.status ≠ PromisePending) :
    resolve v p = (p, []) :=
  match v with
  | UVal.vthenRes w => resolve_settled w p h
  | UVal.vthenRej e => reject_settled e p h
  | UVal.vnil => settleWith_settled _ p h
  | UVal.vint _ => settleWith_settled _ p h
  | UVal.vstr _ => settleWith_settled _ p h
  | UVal.verr _ => settleWith_settled _ p h
  | UVal.vlist _ => settleWith_settled _ p h

theorem stepProm_settled (op : PromOp) (p : aPromise) (h : p.status ≠ PromisePending) :
    (stepProm op p).1 = p := by
  cases op with
  | opResolve v => simp [stepProm, resolve_settled v p h]
  | opReject e => simp [stepProm, reject_settled e p h]
  | opRegister c => simp [stepProm, h]

/-! ## C1 -/

/-- C1: once a promise's status has left Pending, the stored
value/reason never change again and every later `resolve`/`reject` call
is a silent no-op (state unchanged, nothing dispatched); no operation
moves the state at all, so the status transitions away from Pending at
most once. -/
theorem settled_promise_frozen (p : aPromise) (h : p.status ≠ PromisePending) :
    (∀ v, resolve v p = (p, [])) ∧
    (∀ e, reject e p = (p, [])) ∧
    (∀ op, (stepProm op p).1 = p) ∧
    (∀ ops, applyProg ops p = p) := by
  refine ⟨fun v => resolve_settled v p h, fun e => reject_settled e p h,
    fun op => stepProm_settled op p h, fun ops => ?_⟩
  induction ops with
  | nil => rfl
  | cons op ops ih =>
      show applyProg ops (stepProm op p).1 = p
      rw [stepProm_settled op p h]
      exact ih

/-- Witness for C1 at a concrete settled promise. -/
theorem settled_promise_frozen_witness :
    settledEx.status ≠ PromisePending ∧
    resolve (UVal.vint 9) settledEx = (settledEx, []) ∧
    reject (some (Err.simple "late")) settledEx = (settledEx, []) ∧
    applyProg [PromOp.opResolve (UVal.vint 9), PromOp.opReject none] settledEx = settledEx :=
  ⟨by decide,
   (settled_promise_frozen settledEx (by decide)).1 _,
   (settled_promise_frozen settledEx (by decide)).2.1 _,
   (settled_promise_frozen settledEx (by decide)).2.2.2 _⟩

/-! ## C10 -/

theorem reject_status_lt (e : Option Err) (p : aPromise) (h : p.status < 3) :
    ((reject e p).1).status < 3 := by
  unfold reject
  split
  · show PromiseRejected < 3
    decide
  · exact h

theorem settleWith_status_lt (v : UVal) (p : aPromise) (h : p.status < 3) :
    ((settleWith v p).1).status < 3 := by
  unfold settleWith
  split
  · show PromiseResolved < 3
    decide
  · exact h

theorem resolve_status_lt (v : UVal) (p : aPromise) (h : p.status < 3) :
    ((resolve v p).1).status < 3 :=
  match v with
  | UVal.vthenRes w => resolve_status_lt w p h
  | UVal.vthenRej e => reject_status_lt e p h
  | UVal.vnil => settleWith_status_lt _ p h
  | UVal.vint _ => settleWith_status_lt _ p h
  | UVal.vstr _ => settleWith_status_lt _ p h
  | UVal.verr _ => settleWith_status_lt _ p h
  | UVal.vlist _ => settleWith_status_lt _ p h

theorem stepProm_status_lt (op : PromOp) (p : aPromise) (h : p.status < 3) :
    ((stepProm op p).1).status < 3 := by
  cases op with
  | opResolve v => exact resolve_status_lt v p h
  | opReject e => exact reject_status_lt e p h
  | opRegister c =>
      show ((if p.status = PromisePending then _ else _ : aPromise × List Dispatch)).1.status < 3
      split
      · exact h
      · exact h

theorem applyProg_status_lt (ops : List PromOp) (p : aPromise) (h : p.status < 3) :
    (applyProg ops p).status < 3 := by
  induction ops generalizing p with
  | nil => exact h
  | cons op ops ih =>
      show (applyProg ops (stepProm op p).1).status < 3
      exact ih _ (stepProm_status_lt op p h)

/-- C10: every state reachable from the freshly constructed promise by
resolve/reject/registration operations has a status that is one of the
three declared values, so the index into `PromiseStatusName` taken by
`GetStatus` is in bounds and `GetStatus` never faults. -/
theorem getStatus_always_defined (ops : List PromOp) :
    (applyProg ops newPromiseState).status < PromiseStatusName.length ∧
    (GetStatus (applyProg ops newPromiseState)).isSome = true := by
  have h3 : (applyProg ops newPromiseState).status < 3 :=
    applyProg_status_lt ops newPromiseState (by decide)
  constructor
  · simpa [PromiseStatusName] using h3
  · unfold GetStatus
    have hcases : (applyProg ops newPromiseState).status = 0 ∨
        (applyProg ops newPromiseState).status = 1 ∨
        (applyProg ops newPromiseState).status = 2 := by omega
    rcases hcases with h | h | h <;> simp [h, PromiseStatusName]

/-! ## C8 -/

theorem resolve_nestThen (n : Nat) (u : UVal) (p : aPromise) :
    resolve (nestThen n u) p = resolve u p := by
  induction n with
  | zero => rfl
  | succ n ih => rw [nestThen, resolve_vthenRes]; exact ih

/-- C8: resolving a promise with a thenable does not settle it with the
thenable itself: the closure subscribes to the inner thenable's eventual
outcome and adopts it, unwrapping nested thenables of arbitrary depth,
so a chain of `n` thenables around a plain value `u` settles the
promise Resolved with `u`, and a chain around an eventually-rejecting
thenable rejects the promise with the inner reason. -/
theorem resolve_adopts_thenables (p : aPromise) (n : Nat) (u : UVal)
    (hp : p.status = PromisePending) (hu : isThenable u = false) :
    (∀ v, resolve (UVal.vthenRes v) p = resolve v p) ∧
    (∀ e, resolve (UVal.vthenRej e) p = reject e p) ∧
    resolve (nestThen n u) p = resolve u p ∧
    ((resolve (nestThen n u) p).1.status = PromiseResolved ∧
     (resolve (nestThen n u) p).1.result = u) ∧
    (∀ e m, resolve (nestThen m (UVal.vthenRej e)) p = reject e p) := by
  have hbase : resolve u p = settleWith u p := resolve_base u p hu
  have hsettle := settleWith_pending u p hp
  refine ⟨fun v => resolve_vthenRes v p, fun e => resolve_vthenRej e p,
    resolve_nestThen n u p, ?_, fun e m => ?_⟩
  · rw [resolve_nestThen, hbase, hsettle]
    exact ⟨rfl, rfl⟩
  · rw [resolve_nestThen, resolve_vthenRej]

/-- Witness for C8 at a depth-3 chain around the plain value 42. -/
theorem resolve_adopts_thenables_witness :
    newPromiseState.status = PromisePending ∧
    isThenable (UVal.vint 42) = false ∧
    resolve (nestThen 3 (UVal.vint 42)) newPromiseState = resolve (UVal.vint 42) newPromiseState ∧
    (resolve (nestThen 3 (UVal.vint 42)) newPromiseState).1.status = PromiseResolved ∧
    (resolve (nestThen 3 (UVal.vint 42)) newPromiseState).1.result = UVal.vint 42 :=
  ⟨rfl, rfl,
   (resolve_adopts_thenables newPromiseState 3 (UVal.vint 42) rfl rfl).2.2.1,
   (resolve_adopts_thenables newPromiseState 3 (UVal.vint 42) rfl rfl).2.2.2.1.1,
   (resolve_adopts_thenables newPromiseState 3 (UVal.vint 42) rfl rfl).2.2.2.1.2⟩

/-! ## C2, C3, C4: the `handle` continuation of `Then` -/

theorem handleBody_resolved_ret (f : UVal → HResult) (g : Option (Option Err → HResult))
    (v : UVal) (err : Option Err) (res : UVal) (p2 : aPromise) (hf : f v = HResult.ret res) :
    handleBody (some f) g PromiseResolved v err p2 =
      ((resolve res (adopt res (match isErrVal res with
          | some e => (reject (some e) p2).1
          | none => p2))).1, none) := by
  simp [handleBody, hf, PromiseResolved, PromiseRejected]

theorem handleBody_resolved_fault (f : UVal → HResult) (g : Option (Option Err → HResult))
    (v : UVal) (err : Option Err) (r : UVal) (p2 : aPromise) (hf : f v = HResult.fault r) :
    handleBody (some f) g PromiseResolved v err p2 = (p2, some r) := by
  simp [handleBody, hf, PromiseResolved, PromiseRejected]

theorem handleBody_rejected_fault (f : Option (UVal → HResult)) (g : Option Err → HResult)
    (v : UVal) (err : Option Err) (r : UVal) (p2 : aPromise) (hg : g err = HResult.fault r) :
    handleBody f (some g) PromiseRejected v err p2 = (p2, some r) := by
  simp [handleBody, hg]

theorem handle_of_body_ret (onsuccess : Option (UVal → HResult))
    (onfail : Option (Option Err → HResult)) (status : Nat) (val : UVal) (err : Option Err)
    (p2 p2x : aPromise) (hb : handleBody onsuccess onfail status val err p2 = (p2x, none)) :
    handle onsuccess onfail status val err p2 = p2x := by
  unfold handle
  rw [hb]

theorem handle_of_body_fault (onsuccess : Option (UVal → HResult))
    (onfail : Option (Option Err → HResult)) (status : Nat) (val : UVal) (err : Option Err)
    (p2 p2x : aPromise) (r : UVal) (hb : handleBody onsuccess onfail status val err p2 = (p2x, some r)) :
    handle onsuccess onfail status val err p2 =
      match isErrVal r with
      | some e => (reject (some e) p2x).1
      | none => p2x := by
  unfold handle
  rw [hb]

/-- C2: when the parent promise settles Resolved and the fulfilled
handler returns a failure-shaped (error) value, the derived promise
rejects with it; the error-branch match wins and neither thenable
adoption nor the unconditional `resolve(res)` call that the source still
executes has any effect on the derived promise, whose stored result
stays untouched. -/
theorem then_error_result_rejects (f : UVal → HResult) (g : Option (Option Err → HResult))
    (v : UVal) (err : Option Err) (e : Err) (p2 : aPromise)
    (hp : p2.status = PromisePending) (hf : f v = HResult.ret (UVal.verr e)) :
    handle (some f) g PromiseResolved v err p2 =
      { status := PromiseRejected, result := p2.result, reject := some e, callbacks := [] } := by
  rw [handle_of_body_ret (some f) g PromiseResolved v err p2 _
    (handleBody_resolved_ret f g v err (UVal.verr e) p2 hf)]
  show (resolve (UVal.verr e) (adopt (UVal.verr e) (reject (some e) p2).1)).1 = _
  rw [reject_pending _ _ hp]
  show (resolve (UVal.verr e)
      ({ status := PromiseRejected, result := p2.result, reject := some e, callbacks := [] })).1 = _
  rw [resolve_settled _ _ (by decide : PromiseRejected ≠ PromisePending)]

/-- Witness for C2: a fulfilled handler returning an error value rejects
the derived promise with that error. -/
theorem then_error_result_rejects_witness :
    newPromiseState.status = PromisePending ∧
    (fun _ : UVal => HResult.ret (UVal.verr (Err.simple "boom"))) (UVal.vint 1) =
      HResult.ret (UVal.verr (Err.simple "boom")) ∧
    handle (some fun _ => HResult.ret (UVal.verr (Err.simple "boom"))) none PromiseResolved
        (UVal.vint 1) none newPromiseState =
      { status := PromiseRejected, result := UVal.vnil, reject := some (Err.simple "boom"),
        callbacks := [] } :=
  ⟨rfl, rfl,
   then_error_result_rejects (fun _ => HResult.ret (UVal.verr (Err.simple "boom"))) none
     (UVal.vint 1) none (Err.simple "boom") newPromiseState rfl rfl⟩

/-- C3: evaluation of the code at the failing input.  The parent is
rejected and the rejection handler returns nil: the source's
`if res != nil` guard skips the `resolve(res)` recovery call and the
error branch does not fire either, so the derived promise stays Pending
forever instead of resolving with nil as the specification requires.
For contrast, the non-nil recovery value 42 does resolve the derived
promise (the spec's Recovery property). -/
theorem catch_nil_return_leaves_pending :
    handle none (some fun _ => HResult.ret UVal.vnil) PromiseRejected UVal.vnil
        (some (Err.simple "E")) newPromiseState = newPromiseState ∧
    (handle none (some fun _ => HResult.ret UVal.vnil) PromiseRejected UVal.vnil
        (some (Err.simple "E")) newPromiseState).status = PromisePending ∧
    handle none (some fun _ => HResult.ret (UVal.vint 42)) PromiseRejected UVal.vnil
        (some (Err.simple "E")) newPromiseState =
      { status := PromiseResolved, result := UVal.vint 42, reject := none, callbacks := [] } :=
  ⟨rfl, rfl, rfl⟩

/-- C4 counterexample: a fault raised in a fulfilled handler whose panic
value is not an error (here a string) is not converted into a rejection:
the derived promise is left exactly as it was, still Pending, refuting
the claim that every handler fault becomes a rejection carrying the
fault. -/
theorem handler_fault_nonerror_unrejected :
    handle (some fun _ => HResult.fault (UVal.vstr "boom")) none PromiseResolved
        (UVal.vint 1) none newPromiseState = newPromiseState ∧
    (handle (some fun _ => HResult.fault (UVal.vstr "boom")) none PromiseResolved
        (UVal.vint 1) none newPromiseState).status ≠ PromiseRejected :=
  ⟨rfl, by decide⟩

/-- C4 (amended): a fault raised while invoking a `Then`/`Catch` handler
never escapes the continuation (`handle` always returns a state); a
fault whose recovered value is a non-nil error rejects the derived
promise with it, while a fault carrying any other value is silently
swallowed, leaving the derived promise unchanged (still Pending). -/
theorem handler_fault_policy (f : UVal → HResult) (g : Option Err → HResult)
    (v : UVal) (err : Option Err) (p2 : aPromise) (hp : p2.status = PromisePending) :
    (∀ r e, f v = HResult.fault r → r = UVal.verr e →
        handle (some f) none PromiseResolved v err p2 =
          { status := PromiseRejected, result := p2.result, reject := some e, callbacks := [] }) ∧
    (∀ r, f v = HResult.fault r → isErrVal r = none →
        handle (some f) none PromiseResolved v err p2 = p2) ∧
    (∀ r e, g err = HResult.fault r → r = UVal.verr e →
        handle none (some g) PromiseRejected v err p2 =
          { status := PromiseRejected, result := p2.result, reject := some e, callbacks := [] }) ∧
    (∀ r, g err = HResult.fault r → isErrVal r = none →
        handle none (some g) PromiseRejected v err p2 = p2) := by
  refine ⟨fun r e hf hr => ?_, fun r hf hr => ?_, fun r e hg hr => ?_, fun r hg hr => ?_⟩
  · subst hr
    rw [handle_of_body_fault (some f) none PromiseResolved v err p2 p2 _
      (handleBody_resolved_fault f none v err _ p2 hf)]
    show (reject (some e) p2).1 = _
    rw [reject_pending _ _ hp]
  · rw [handle_of_body_fault (some f) none PromiseResolved v err p2 p2 r
      (handleBody_resolved_fault f none v err r p2 hf), hr]
  · subst hr
    rw [handle_of_body_fault none (some g) PromiseRejected v err p2 p2 _
      (handleBody_rejected_fault none g v err _ p2 hg)]
    show (reject (some e) p2).1 = _
    rw [reject_pending _ _ hp]
  · rw [handle_of_body_fault none (some g) PromiseRejected v err p2 p2 r
      (handleBody_rejected_fault none g v err r p2 hg), hr]

/-- Witness for C4 (amended): an error-valued fault in a fulfilled
handler rejects the derived promise with that error. -/
theorem handler_fault_policy_witness :
    newPromiseState.status = PromisePending ∧
    handle (some fun _ => HResult.fault (UVal.verr (Err.simple "pboom"))) none PromiseResolved
        (UVal.vint 1) none newPromiseState =
      { status := PromiseRejected, result := UVal.vnil, reject := some (Err.simple "pboom"),
        callbacks := [] } :=
  ⟨rfl,
   (handler_fault_policy (fun _ => HResult.fault (UVal.verr (Err.simple "pboom")))
       (fun _ => HResult.ret UVal.vnil) (UVal.vint 1) none newPromiseState rfl).1 _ _ rfl rfl⟩

/-! ## Combinator lemmas -/

theorem get?_mem_of_lt {α : Type} (l : List α) (n : Nat) (h : n < l.length) :
    ∃ a, l.get? n = some a ∧ a ∈ l :=
  ⟨l.get ⟨n, h⟩, List.get?_eq_get h, List.get_mem l n h⟩

theorem mem_of_nodup_length_eq (σ : List Nat) (n : Nat) (hnd : σ.Nodup)
    (hlen : σ.length = n) (hmem : ∀ i ∈ σ, i < n) : ∀ j, j < n → j ∈ σ := by
  intro j hj
  have hsub : σ.toFinset ⊆ Finset.range n := by
    intro x hx
    exact Finset.mem_range.mpr (hmem x (List.mem_toFinset.mp hx))
  have hcard : (Finset.range n).card ≤ σ.toFinset.card := by
    rw [Finset.card_range, List.toFinset_card_of_nodup hnd, hlen]
  have heq : σ.toFinset = Finset.range n := Finset.eq_of_subset_of_card_le hsub hcard
  exact List.mem_toFinset.mp (heq ▸ Finset.mem_range.mpr hj)

theorem allStep_nil (st : AllState) (i : Nat) : allStep [] st i = st := by
  simp [allStep]

theorem allStep_prom_settled (inputs : List Settle) (st : AllState) (i : Nat)
    (h : st.prom.status ≠ PromisePending) : (allStep inputs st i).prom = st.prom := by
  unfold allStep
  cases hgi : inputs.get? i with
  | none => rfl
  | some s =>
      cases s with
      | sres v =>
          simp only
          split
          · simp [resolve_settled _ _ h]
          · rfl
      | srej e => simp [reject_settled _ _ h]

theorem foldAll_prom_settled (inputs : List Settle) (σ : List Nat) (st : AllState)
    (h : st.prom.status ≠ PromisePending) :
    (σ.foldl (allStep inputs) st).prom = st.prom := by
  induction σ generalizing st with
  | nil => rfl
  | cons i σ ih =>
      rw [List.foldl_cons]
      have h2 : (allStep inputs st i).prom = st.prom := allStep_prom_settled inputs st i h
      rw [ih (allStep inputs st i) (by rw [h2]; exact h), h2]

theorem foldAll_resolving_run (inputs : List Settle) (σ : List Nat) (st : AllState)
    (hres : ∀ i ∈ σ, ∃ v, inputs.get? i = some (Settle.sres v))
    (hlt : st.countSuccess + σ.length < inputs.length) :
    (σ.foldl (allStep inputs) st).prom = st.prom ∧
    (σ.foldl (allStep inputs) st).countSuccess = st.countSuccess + σ.length := by
  induction σ generalizing st with
  | nil => exact ⟨rfl, rfl⟩
  | cons i σ ih =>
      obtain ⟨v, hv⟩ := hres i (List.mem_cons_self i σ)
      have hnofire : inputs.length ≠ st.countSuccess + 1 := by
        simp [List.length_cons] at hlt
        omega
      have hstep : allStep inputs st i =
          { results := st.results.set i v, countSuccess := st.countSuccess + 1,
            prom := st.prom } := by
        simp only [allStep, hv]
        rw [if_neg hnofire]
      rw [List.foldl_cons, hstep]
      have hlt' : st.countSuccess + 1 + σ.length < inputs.length := by
        simp [List.length_cons] at hlt
        omega
      obtain ⟨h1, h2⟩ := ih
        { results := st.results.set i v, countSuccess := st.countSuccess + 1, prom := st.prom }
        (fun x hx => hres x (List.mem_cons_of_mem i hx)) hlt'
      refine ⟨h1, ?_⟩
      rw [h2]
      simp [List.length_cons]
      omega

theorem foldAll_resolving_final (inputs : List Settle) :
    ∀ (rem : List Nat) (st : AllState),
    (∀ i ∈ rem, i < inputs.length) →
    rem.Nodup →
    st.results.length = inputs.length →
    st.countSuccess + rem.length = inputs.length →
    st.prom = newPromiseState →
    (∀ j, j < inputs.length → j ∉ rem →
        st.results.get? j = (inputs.map settleValue).get? j) →
    (∀ i ∈ rem, ∃ v, inputs.get? i = some (Settle.sres v)) →
    rem ≠ [] →
    (rem.foldl (allStep inputs) st).prom =
      { status := PromiseResolved, result := UVal.vlist (inputs.map settleValue),
        reject := none, callbacks := [] }
  | [], _, _, _, _, _, _, _, _, hne => absurd rfl hne
  | [i], st, hmem, _, hlen, hcs, hprom, hset, hres, _ => by
      obtain ⟨v, hv⟩ := hres i (List.mem_cons_self i [])
      have hilt : i < inputs.length := hmem i (List.mem_cons_self i [])
      have hfire : inputs.length = st.countSuccess + 1 := by
        simp [List.length_cons] at hcs
        omega
      have hsetlist : st.results.set i v = inputs.map settleValue := by
        apply List.ext
        intro j
        rcases Nat.lt_or_ge j inputs.length with hjlt | hjge
        · by_cases hj : j = i
          · subst hj
            rw [List.get?_set_eq_of_lt v (by rw [hlen]; exact hjlt), List.get?_map, hv]
            rfl
          · rw [List.get?_set_ne v _ (Ne.symm hj)]
            exact hset j hjlt (by simp [hj])
        · rw [List.get?_len_le (by rw [List.length_set, hlen]; exact hjge),
              List.get?_len_le (by rw [List.length_map]; exact hjge)]
      have hstep : allStep inputs st i =
          { results := st.results.set i v, countSuccess := st.countSuccess + 1,
            prom := (resolve (UVal.vlist (st.results.set i v)) st.prom).1 } := by
        simp only [allStep, hv]
        rw [if_pos hfire]
      simp only [List.foldl_cons, List.foldl_nil]
      rw [hstep]
      show (resolve (UVal.vlist (st.results.set i v)) st.prom).1 = _
      rw [hsetlist, hprom,
        resolve_base (UVal.vlist (inputs.map settleValue)) newPromiseState rfl,
        settleWith_pending _ _ rfl]
      rfl
  | i :: j :: rem, st, hmem, hnd, hlen, hcs, hprom, hset, hres, _ => by
      obtain ⟨v, hv⟩ := hres i (List.mem_cons_self i _)
      have hilt : i < inputs.length := hmem i (List.mem_cons_self i _)
      have hnofire : inputs.length ≠ st.countSuccess + 1 := by
        simp [List.length_cons] at hcs
        omega
      have hstep : allStep inputs st i =
          { results := st.results.set i v, countSuccess := st.countSuccess + 1,
            prom := st.prom } := by
        simp only [allStep, hv]
        rw [if_neg hnofire]
      rw [List.foldl_cons, hstep]
      refine foldAll_resolving_final inputs (j :: rem)
        { results := st.results.set i v, countSuccess := st.countSuccess + 1, prom := st.prom }
        (fun x hx => hmem x (List.mem_cons_of_mem i hx))
        (List.Nodup.of_cons hnd)
        (by rw [List.length_set]; exact hlen)
        (by simp [List.length_cons] at hcs ⊢; omega)
        hprom
        ?_
        (fun x hx => hres x (List.mem_cons_of_mem i hx))
        (List.cons_ne_nil j rem)
      intro jj hjj hnotin
      by_cases hji : jj = i
      · subst hji
        rw [List.get?_set_eq_of_lt v (by rw [hlen]; exact hjj), List.get?_map, hv]
        rfl
      · rw [List.get?_set_ne v _ (Ne.symm hji)]
        refine hset jj hjj ?_
        intro hmem'
        rcases List.mem_cons.mp hmem' with h | h
        · exact hji h
        · exact hnotin h

theorem anyStep_prom_settled (inputs : List Settle) (st : AnyState) (i : Nat)
    (h : st.prom.status ≠ PromisePending) : (anyStep inputs st i).prom = st.prom := by
  unfold anyStep
  cases hgi : inputs.get? i with
  | none => rfl
  | some s =>
      cases s with
      | sres v => simp [resolve_settled _ _ h]
      | srej e =>
          simp only
          split
          · simp [reject_settled _ _ h]
          · rfl

theorem foldAny_prom_settled (inputs : List Settle) (σ : List Nat) (st : AnyState)
    (h : st.prom.status ≠ PromisePending) :
    (σ.foldl (anyStep inputs) st).prom = st.prom := by
  induction σ generalizing st with
  | nil => rfl
  | cons i σ ih =>
      rw [List.foldl_cons]
      have h2 : (anyStep inputs st i).prom = st.prom := anyStep_prom_settled inputs st i h
      rw [ih (anyStep inputs st i) (by rw [h2]; exact h), h2]

theorem foldAny_rejecting_run (inputs : List Settle) (σ : List Nat) (st : AnyState)
    (hrej : ∀ i ∈ σ, ∃ e, inputs.get? i = some (Settle.srej e))
    (hlt : st.failures + σ.length < inputs.length) :
    (σ.foldl (anyStep inputs) st).prom = st.prom ∧
    (σ.foldl (anyStep inputs) st).failures = st.failures + σ.length := by
  induction σ generalizing st with
  | nil => exact ⟨rfl, rfl⟩
  | cons i σ ih =>
      obtain ⟨e, he⟩ := hrej i (List.mem_cons_self i σ)
      have hnofire : st.failures + 1 ≠ inputs.length := by
        simp [List.length_cons] at hlt
        omega
      have hstep : anyStep inputs st i = { failures := st.failures + 1, prom := st.prom } := by
        simp only [anyStep, he]
        rw [if_neg hnofire]
      rw [List.foldl_cons, hstep]
      have hlt' : st.failures + 1 + σ.length < inputs.length := by
        simp [List.length_cons] at hlt
        omega
      obtain ⟨h1, h2⟩ := ih { failures := st.failures + 1, prom := st.prom }
        (fun x hx => hrej x (List.mem_cons_of_mem i hx)) hlt'
      refine ⟨h1, ?_⟩
      rw [h2]
      simp [List.length_cons]
      omega

theorem foldAny_rejecting_final (inputs : List Settle) :
    ∀ (rem : List Nat) (st : AnyState),
    (∀ i ∈ rem, ∃ e, inputs.get? i = some (Settle.srej e)) →
    st.failures + rem.length = inputs.length →
    st.prom = newPromiseState →
    rem ≠ [] →
    (rem.foldl (anyStep inputs) st).prom =
      { status := PromiseRejected, result := UVal.vnil,
        reject := some (Err.multi "all promises failed" (getPromiseOutcomes inputs)),
        callbacks := [] }
  | [], _, _, _, _, hne => absurd rfl hne
  | [i], st, hrej, hcs, hprom, _ => by
      obtain ⟨e, he⟩ := hrej i (List.mem_cons_self i [])
      have hfire : st.failures + 1 = inputs.length := by
        simp [List.length_cons] at hcs
        omega
      simp only [List.foldl_cons, List.foldl_nil]
      have hstep : anyStep inputs st i =
          { failures := st.failures + 1,
            prom := (reject (some (Err.multi "all promises failed" (getPromiseOutcomes inputs)))
              st.prom).1 } := by
        simp only [anyStep, he]
        rw [if_pos hfire]
      rw [hstep]
      show (reject _ st.prom).1 = _
      rw [hprom, reject_pending _ _ rfl]
      rfl
  | i :: j :: rem, st, hrej, hcs, hprom, _ => by
      obtain ⟨e, he⟩ := hrej i (List.mem_cons_self i _)
      have hnofire : st.failures + 1 ≠ inputs.length := by
        simp [List.length_cons] at hcs
        omega
      have hstep : anyStep inputs st i = { failures := st.failures + 1, prom := st.prom } := by
        simp only [anyStep, he]
        rw [if_neg hnofire]
      rw [List.foldl_cons, hstep]
      exact foldAny_rejecting_final inputs (j :: rem)
        { failures := st.failures + 1, prom := st.prom }
        (fun x hx => hrej x (List.mem_cons_of_mem i hx))
        (by simp [List.length_cons] at hcs ⊢; omega)
        hprom (List.cons_ne_nil j rem)

/-! ## C5 -/

/-- C5 counterexample: `All` applied to an empty list of promises,
after its executor has run to completion (there are no inputs to
settle), leaves the synthetic promise Pending: it does not resolve
immediately with an empty sequence, refuting the claim. -/
theorem all_empty_not_resolved :
    (runAll [] []).status = PromisePending ∧ (runAll [] []).status ≠ PromiseResolved :=
  ⟨rfl, by decide⟩

/-- C5 (amended): `All` applied to an empty list of promises never
settles: under every schedule the synthetic promise stays exactly the
fresh pending promise, because `resolve(_results)` is only reachable
from an input's continuation and there are no inputs. -/
theorem all_empty_never_settles (σ : List Nat) : runAll [] σ = newPromiseState := by
  unfold runAll
  have h : ∀ st : AllState, σ.foldl (allStep []) st = st := by
    intro st
    induction σ generalizing st with
    | nil => rfl
    | cons i σ ih => rw [List.foldl_cons, allStep_nil]; exact ih _
  rw [h]
  rfl

/-! ## C6 -/

/-- C6: for a non-empty input list whose members all eventually settle,
`All` resolves with the list of the inputs' values in input order (the
schedule `σ`, the completion order, may be any permutation of the
indices), once every input has resolved; and as soon as some input
rejects — `k` being the chronologically first rejection — the synthetic
promise rejects with that input's reason, the outcomes of every input
settling later (the schedule suffix `σ₂`) being ignored. -/
theorem all_combinator_correct (inputs : List Settle) (σ : List Nat)
    (hlen : σ.length = inputs.length) (hnd : σ.Nodup)
    (hmem : ∀ i ∈ σ, i < inputs.length) :
    ((∀ s ∈ inputs, isRes s = true) → 0 < inputs.length →
        runAll inputs σ =
          { status := PromiseResolved, result := UVal.vlist (inputs.map settleValue),
            reject := none, callbacks := [] }) ∧
    (∀ σ₁ k σ₂ e, σ = σ₁ ++ k :: σ₂ →
        (∀ i ∈ σ₁, ∃ v, inputs.get? i = some (Settle.sres v)) →
        inputs.get? k = some (Settle.srej e) →
        runAll inputs σ =
          { status := PromiseRejected, result := UVal.vnil, reject := e,
            callbacks := [] }) := by
  constructor
  · intro hall hpos
    unfold runAll
    refine foldAll_resolving_final inputs σ (allInit inputs) hmem hnd
      (by simp [allInit]) (by simp [allInit]; exact hlen) rfl ?_ ?_ ?_
    · intro j hj hnotin
      exact absurd (mem_of_nodup_length_eq σ inputs.length hnd hlen hmem j hj) hnotin
    · intro i hi
      obtain ⟨s, hs, hsmem⟩ := get?_mem_of_lt inputs i (hmem i hi)
      cases s with
      | sres v => exact ⟨v, hs⟩
      | srej e => exact absurd (hall _ hsmem) (by simp [isRes])
    · intro hnil
      rw [hnil] at hlen
      simp at hlen
      omega
  · intro σ₁ k σ₂ e hσ hres1 hk
    subst hσ
    unfold runAll
    rw [List.foldl_append, List.foldl_cons]
    have hσ1lt : (allInit inputs).countSuccess + σ₁.length < inputs.length := by
      simp [List.length_append, List.length_cons] at hlen
      simp [allInit]
      omega
    obtain ⟨hp1, _⟩ := foldAll_resolving_run inputs σ₁ (allInit inputs) hres1 hσ1lt
    have hstep : (allStep inputs (σ₁.foldl (allStep inputs) (allInit inputs)) k).prom =
        { status := PromiseRejected, result := UVal.vnil, reject := e, callbacks := [] } := by
      simp only [allStep, hk]
      show (reject e (σ₁.foldl (allStep inputs) (allInit inputs)).prom).1 = _
      rw [hp1, reject_pending _ _ rfl]
      rfl
    rw [foldAll_prom_settled inputs σ₂ _
      (by rw [hstep]; show PromiseRejected ≠ PromisePending; decide), hstep]

/-- Witness for C6: three inputs resolving with 1, 2, 3 completing in
reverse order still resolve `All` with the values in input order. -/
theorem all_combinator_correct_witness :
    runAll allEx [2, 1, 0] =
      { status := PromiseResolved,
        result := UVal.vlist [UVal.vint 1, UVal.vint 2, UVal.vint 3],
        reject := none, callbacks := [] } :=
  (all_combinator_correct allEx [2, 1, 0] (by decide) (by decide)
    (by decide)).1 (by decide) (by decide)

/-! ## C7 -/

/-- C7: `Any` resolves with the value of the chronologically first input
to resolve (`k`, preceded in the schedule only by rejections), and
rejects only when every input rejects, in which case the reason is the
aggregate failure whose per-member outcome list is in original input
order (`getPromiseOutcomes inputs`), independent of the completion
order `σ`. -/
theorem any_combinator_correct (inputs : List Settle) (σ : List Nat)
    (hlen : σ.length = inputs.length) (hmem : ∀ i ∈ σ, i < inputs.length) :
    (∀ σ₁ k σ₂ v, σ = σ₁ ++ k :: σ₂ →
        (∀ i ∈ σ₁, ∃ e, inputs.get? i = some (Settle.srej e)) →
        inputs.get? k = some (Settle.sres v) →
        isThenable v = false →
        runAny inputs σ =
          { status := PromiseResolved, result := v, reject := none, callbacks := [] }) ∧
    ((∀ s ∈ inputs, isRes s = false) → 0 < inputs.length →
        runAny inputs σ =
          { status := PromiseRejected, result := UVal.vnil,
            reject := some (Err.multi "all promises failed" (getPromiseOutcomes inputs)),
            callbacks := [] }) := by
  constructor
  · intro σ₁ k σ₂ v hσ hrej1 hk hv
    subst hσ
    unfold runAny
    rw [List.foldl_append, List.foldl_cons]
    have hσ1lt : (⟨0, newPromiseState⟩ : AnyState).failures + σ₁.length < inputs.length := by
      simp [List.length_append, List.length_cons] at hlen
      show 0 + σ₁.length < inputs.length
      omega
    obtain ⟨hp1, _⟩ := foldAny_rejecting_run inputs σ₁ ⟨0, newPromiseState⟩ hrej1 hσ1lt
    have hstep : (anyStep inputs (σ₁.foldl (anyStep inputs) ⟨0, newPromiseState⟩) k).prom =
        { status := PromiseResolved, result := v, reject := none, callbacks := [] } := by
      simp only [anyStep, hk]
      show (resolve v (σ₁.foldl (anyStep inputs) ⟨0, newPromiseState⟩).prom).1 = _
      rw [hp1, resolve_base _ _ hv, settleWith_pending _ _ rfl]
      rfl
    rw [foldAny_prom_settled inputs σ₂ _
      (by rw [hstep]; show PromiseResolved ≠ PromisePending; decide), hstep]
  · intro hall hpos
    unfold runAny
    refine foldAny_rejecting_final inputs σ ⟨0, newPromiseState⟩ ?_ (by simpa using hlen) rfl ?_
    · intro i hi
      obtain ⟨s, hs, hsmem⟩ := get?_mem_of_lt inputs i (hmem i hi)
      cases s with
      | sres v => exact absurd (hall _ hsmem) (by simp [isRes])
      | srej e => exact ⟨e, hs⟩
    · intro hnil
      rw [hnil] at hlen
      simp at hlen
      omega

/-- Witness for C7: two inputs rejecting with e1, e2 completing in
reverse order reject `Any` with the aggregate whose member reasons are
in original input order. -/
theorem any_combinator_correct_witness :
    runAny anyEx [1, 0] =
      { status := PromiseRejected, result := UVal.vnil,
        reject := some (Err.multi "all promises failed"
          [some (Err.simple "e1"), some (Err.simple "e2")]),
        callbacks := [] } :=
  (any_combinator_correct anyEx [1, 0] (by decide) (by decide)).2 (by decide) (by decide)

/-! ## C9 -/

/-- C9: evaluation of `Wait` at the failing schedule.  After settlement
the continuation registered by `Channel` has sent on one channel and
closed both, so in `Wait`'s select both cases are ready (a receive on a
closed channel completes at once with the zero value) and the Go
runtime picks one pseudo-randomly.  Picking the channel that matches
the settlement returns what the claim states; picking the other one
returns `(nil, nil)`: on a promise resolved with 1, `Wait` can return
`(nil, nil)` instead of `(1, nil)`, and on a rejected promise it can
return `(nil, nil)` instead of `(nil, reason)`. -/
theorem wait_select_race :
    waitAfter resolvedOne true = (UVal.vint 1, none) ∧
    waitAfter resolvedOne false = (UVal.vnil, none) ∧
    waitAfter rejectedE false = (UVal.vnil, some (Err.simple "E")) ∧
    waitAfter rejectedE true = (UVal.vnil, none) :=
  ⟨rfl, rfl, rfl, rfl⟩

end GoPromise
